import Mathlib

/-!
Shallow embedding of the Bug-Fixer agent core: the plan-execute-review-persist
loop of `bug_fix_workflow.py` (nodes `plan_step`, `execute_step`, `review_step`,
`should_continue`, `save_plan_step`, wired by `_build_graph`) and the plan cache
of `code_base_kg.py` (`save_successful_plan`, `find_successful_plan`).

Modelling conventions:
* Python strings are Lean `String`; free-form text scanned for substrings is
  converted to `List Char` via `String.toList`.
* A step dict `{"tool_name": ..., "parameters": ...}` is `PyStep`; a missing key
  (or a `None` value, which `dict.get` treats the same way) is `none`.
* The external LLM calls (Cohere planning, Gemini review) are oracles passed in
  as parameters: the planner oracle maps the built prompt to either a generated
  plan (`Except.ok`, covering the empty `tool_calls` case as `ok []`) or a raised
  exception (`Except.error`), and the reviewer oracle yields the raw text that
  `StrOutputParser` returns.
* Tool capabilities (`read_file`, `write_file`, ...) are excluded collaborators;
  the tool registry is a parameter `ToolMap`, a capability either returns a
  result string or raises (`Except.error`).
* The Neo4j store is a list of `Plan` node records; `ORDER BY rand() LIMIT 1`
  is modelled by an explicit `choice` selector; `json.dumps`/`json.loads` are
  modelled by `dumpsPlan`/`loadsPlan` over character lists.
-/

/-- Parameters dict of a step: association list with first-key-wins lookup,
modelling a Python dict from parameter names to string values. -/
abbrev Params := List (String × String)

/-- Python dict lookup: `d[k]` when present, and `k in d` as `≠ none`. -/
def pyDictGet (k : String) : Params → Option String
  | [] => none
  | (k2, v) :: rest => if k = k2 then some v else pyDictGet k rest

/-- One plan step: the dict `{"tool_name": ..., "parameters": ...}` built in
`plan_step`; `none` models a missing key or a `None` value. -/
structure PyStep where
  tool_name : Option String
  parameters : Option Params
deriving DecidableEq

/-- The `AgentState` TypedDict of `agent_state.py`. -/
structure AgentState where
  issue_summary : String
  repo_url : String
  local_path : String
  plan : List PyStep
  execution_results : List String
  review_feedback : Option String
  current_task_status : String
deriving DecidableEq

/-- A tool capability: takes the step parameters and either returns a result
string or raises (`Except.error` carries `str(e)`). -/
abbrev PyTool := Params → Except String String

/-- The tool registry `self.tool_map`: name to capability. -/
abbrev ToolMap := String → Option PyTool

/-- Lookup `self.tool_map.get(tool_name)` where `tool_name` may be `None`
(a missing `"tool_name"` key); the registry keys are strings, so `None`
never resolves. -/
def lookupTool (tm : ToolMap) : Option String → Option PyTool
  | none => none
  | some n => tm n

/-- Python `str()` of an optional string as interpolated into f-strings:
`str(None)` prints `None`. -/
def pyStr : Option String → String
  | none => "None"
  | some s => s

/-- Outcome string of one step of `execute_step`: resolution failure yields the
f-string `Error: Tool \x27...\x27 not found.`; a capability fault is caught and
yields `Error executing tool \x27...\x27: ...`. -/
def stepResult (tm : ToolMap) (step : PyStep) : String :=
  match lookupTool tm step.tool_name with
  | none => "Error: Tool \x27" ++ pyStr step.tool_name ++ "\x27 not found."
  | some f =>
    match f (step.parameters.getD []) with
    | Except.ok r => r
    | Except.error e =>
      "Error executing tool \x27" ++ pyStr step.tool_name ++ "\x27: " ++ e

/-- The `results` list accumulated by the `for` loop of `execute_step`:
one appended outcome per step, in plan order. -/
def executeResults (tm : ToolMap) (plan : List PyStep) : List String :=
  plan.map (stepResult tm)

/-- The `execute_step` node: returns the update `{"execution_results": results}`,
merged into the state (all other fields unchanged). -/
def execute_step (tm : ToolMap) (s : AgentState) : AgentState :=
  { s with execution_results := executeResults tm s.plan }

/-- Boolean test that `needle` is a prefix of `hay` (character lists). -/
def startsWithChars : List Char → List Char → Bool
  | [], _ => true
  | _ :: _, [] => false
  | a :: as, b :: bs => if a = b then startsWithChars as bs else false

/-- Model of the Python substring test `needle in hay` on character lists. -/
def hasSubstr (needle : List Char) : List Char → Bool
  | [] => needle.isEmpty
  | c :: cs => startsWithChars needle (c :: cs) || hasSubstr needle cs

/-- The marker `review_step` and `plan_step` scan for. The literal at lines
297 and 408 of `bug_fix_workflow.py` is the byte sequence c3 a2 c5 92 20 52 45
56 49 53 45, i.e. the two characters U+00E2 U+0152 (the mojibake rendering
"âŒ", a corruption of an emoji) followed by a space and `REVISE` - not the
real emoji U+274C. The embedding uses the exact literal the program tests. -/
def reviseMarker : List Char := "\u00e2\u0152 REVISE".toList

/-- Model of `review_decision = "REVISE" if "âŒ REVISE" in review_content else "COMPLETE"`. -/
def reviewDecision (content : String) : String :=
  if hasSubstr reviseMarker content.toList then "REVISE" else "COMPLETE"

/-- The `review_step` node: returns the update
`{"current_task_status": review_decision, "review_feedback": review_content}`
for reviewer raw output `content`. -/
def review_step (content : String) (s : AgentState) : AgentState :=
  { s with
    current_task_status := reviewDecision content
    review_feedback := some content }

/-- The conditional-edge router of `_build_graph`. -/
def should_continue (s : AgentState) : String :=
  if s.current_task_status = "COMPLETE" then "end" else "continue"

/-- The dict `find_successful_plan` returns on a hit. -/
structure CachedPlanData where
  issue : String
  plan : List PyStep
deriving DecidableEq

/-- The prompt `plan_step` sends to the Cohere call, abstracted to the data each
template is formatted with: `failure_reviser_prompt_template` receives the
issue, the failed plan, the execution trace, and the reviewer feedback;
`reviser_prompt_template` receives the issue and the cached record; the fresh
path sends the bare issue text. -/
inductive PlannerMessage where
  | fresh (issue : String)
  | cacheRevise (userCommand : String) (oldIssue : String) (cachedPlan : List PyStep)
  | recovery (issueSummary : String) (failedPlan : List PyStep)
      (executionResults : List String) (reviewFeedback : String)
deriving DecidableEq

/-- What one invocation of `plan_step` does before calling the model: which
message it builds, and whether it consulted `find_successful_plan`. -/
structure PlannerCall where
  message : PlannerMessage
  cacheConsulted : Bool
deriving DecidableEq

/-- The branch condition `if review_feedback and "âŒ REVISE" in review_feedback`:
Python truthiness makes `None` and the empty string take the else-branch. -/
def recoveryTriggered : Option String → Bool
  | none => false
  | some fb => decide (fb ≠ "") && hasSubstr reviseMarker fb.toList

/-- Prompt construction of `plan_step`: in recovery mode the cache is never
consulted; otherwise `find_successful_plan` is called and its result selects
between the cache-seeded reviser template and the bare issue. `findResult` is
the value that call would return. -/
def plannerCall (findResult : Option CachedPlanData) (s : AgentState) : PlannerCall :=
  if recoveryTriggered s.review_feedback then
    { message := PlannerMessage.recovery s.issue_summary s.plan s.execution_results
        (s.review_feedback.getD "")
      cacheConsulted := false }
  else
    match findResult with
    | some cached =>
      { message := PlannerMessage.cacheRevise s.issue_summary cached.issue cached.plan
        cacheConsulted := true }
    | none =>
      { message := PlannerMessage.fresh s.issue_summary
        cacheConsulted := true }

/-- The `plan_step` node: on a successful generation it returns the update
`{"plan": plan, "execution_results": [], "review_feedback": None}`; the
`except` path returns `{"plan": [], "review_feedback": None}` (note: no
`execution_results` key, so that field keeps its previous value under
the LangGraph merge of partial updates). -/
def plan_step (findResult : Option CachedPlanData)
    (gen : PlannerMessage → Except String (List PyStep)) (s : AgentState) : AgentState :=
  match gen (plannerCall findResult s).message with
  | Except.ok plan =>
    { s with plan := plan, execution_results := [], review_feedback := none }
  | Except.error _ =>
    { s with plan := [], review_feedback := none }

/-- The arguments `save_plan_step` passes to
`kg_builder.save_successful_plan(issue, plan, file_paths)`. -/
structure SaveCall where
  issue : String
  plan : List PyStep
  files : List String
deriving DecidableEq

/-- The list comprehension of `save_plan_step`:
`list(set([p["parameters"]["file_path"] for p in plan if "file_path" in p.get("parameters", {})]))`,
a Python set modelled as a deduplicated list. -/
def filePathsOfPlan (plan : List PyStep) : List String :=
  (plan.filterMap (fun p => pyDictGet "file_path" (p.parameters.getD []))).dedup

/-- The `save_plan_step` node: saves exactly when `plan` and `file_paths` are
both truthy (non-empty); the commit-and-push side effect is an excluded
collaborator. Returns the state together with the save call made, if any. -/
def save_plan_step (s : AgentState) : AgentState × Option SaveCall :=
  if s.plan ≠ [] ∧ filePathsOfPlan s.plan ≠ [] then
    (s, some { issue := s.issue_summary, plan := s.plan, files := filePathsOfPlan s.plan })
  else
    (s, none)

/-- The compiled graph of `_build_graph`, run to completion: entry at the
planner, `planner → executor → reviewer`, then the conditional edge routes
`"continue"` back to the planner and `"end"` through `save_plan` to `END`.
`fuel` bounds the number of rounds observed (the source loop is unbounded);
`k` indexes the oracle responses round by round. Returns `none` when the run
has not terminated within `fuel` rounds, otherwise the final state and the
save call the terminal `save_plan` node made, if any. -/
def runLoop (tm : ToolMap) (find : Nat → Option CachedPlanData)
    (gen : Nat → PlannerMessage → Except String (List PyStep))
    (rev : Nat → String) : Nat → Nat → AgentState → Option (AgentState × Option SaveCall)
  | 0, _, _ => none
  | fuel + 1, k, s =>
    if should_continue (review_step (rev k) (execute_step tm (plan_step (find k) (gen k) s))) = "end" then
      some (save_plan_step (review_step (rev k) (execute_step tm (plan_step (find k) (gen k) s))))
    else
      runLoop tm find gen rev fuel (k + 1)
        (review_step (rev k) (execute_step tm (plan_step (find k) (gen k) s)))

/-- Left brace character, written by code point. -/
def lbrace : Char := '\x7b'

/-- Right brace character, written by code point. -/
def rbrace : Char := '\x7d'

/-- Escaping of one character inside a JSON string literal, as far as the
`json.dumps` / `json.loads` composition can observe it: quote and backslash
gain a backslash; every other character is carried through (CPython
additionally rewrites control and non-ASCII characters to escapes that
`json.loads` undoes again, so the composition is the identity on them). -/
def escChar (c : Char) : List Char :=
  if c = '"' ∨ c = '\\' then ['\\', c] else [c]

/-- Escaping of a whole string body. -/
def escStr : List Char → List Char
  | [] => []
  | c :: cs => escChar c ++ escStr cs

/-- Model of `json.dumps` of a string value. -/
def dumpStr (s : String) : List Char :=
  '"' :: (escStr s.toList ++ ['"'])

/-- Model of `json.dumps` of the parameters dict, default separators
(comma-space between items, colon-space after a key). -/
def dumpPairs : Params → List Char
  | [] => []
  | (k, v) :: rest =>
    dumpStr k ++ [':', ' '] ++ dumpStr v ++
      match rest with
      | [] => []
      | _ :: _ => [',', ' '] ++ dumpPairs rest

/-- Model of `json.dumps` of an object built from a parameters dict. -/
def dumpObj (ps : Params) : List Char :=
  lbrace :: (dumpPairs ps ++ [rbrace])

/-- Model of `json.dumps` of an optional string (`None` serialises as `null`). -/
def dumpOptStr : Option String → List Char
  | none => "null".toList
  | some s => dumpStr s

/-- Model of `json.dumps` of an optional parameters dict. -/
def dumpOptObj : Option Params → List Char
  | none => "null".toList
  | some ps => dumpObj ps

/-- Leading characters of a serialised step: brace, quoted key
`tool_name`, colon-space. -/
def stepKeyHead : List Char := lbrace :: ('"' :: ("tool_name".toList ++ ['"', ':', ' ']))

/-- Middle characters of a serialised step: comma-space, quoted key
`parameters`, colon-space. -/
def stepKeyMid : List Char := ',' :: (' ' :: ('"' :: ("parameters".toList ++ ['"', ':', ' '])))

/-- Model of `json.dumps` of one step dict, keys in insertion order. -/
def dumpStep (st : PyStep) : List Char :=
  stepKeyHead ++ dumpOptStr st.tool_name ++ stepKeyMid ++ dumpOptObj st.parameters ++ [rbrace]

/-- Comma-space separated serialisation of the steps of a plan. -/
def dumpStepsSep : List PyStep → List Char
  | [] => []
  | st :: rest =>
    dumpStep st ++
      match rest with
      | [] => []
      | _ :: _ => [',', ' '] ++ dumpStepsSep rest

/-- Model of `json.dumps(plan)` as computed in `save_successful_plan`. -/
def dumpsPlan (plan : List PyStep) : List Char :=
  '[' :: (dumpStepsSep plan ++ [']'])

/-- Parse the body of a JSON string after the opening quote, undoing `escChar`;
returns the decoded characters and the unconsumed input. -/
def parseStrBody : List Char → Option (List Char × List Char)
  | [] => none
  | c :: cs =>
    if c = '"' then some ([], cs)
    else if c = '\\' then
      match cs with
      | [] => none
      | d :: ds =>
        match parseStrBody ds with
        | none => none
        | some (s, r) => some (d :: s, r)
    else
      match parseStrBody cs with
      | none => none
      | some (s, r) => some (c :: s, r)

/-- Parse a JSON string value. -/
def parseStr (input : List Char) : Option (String × List Char) :=
  match input with
  | c :: cs =>
    if c = '"' then
      match parseStrBody cs with
      | none => none
      | some (s, r) => some (String.mk s, r)
    else none
  | [] => none

/-- Consume an exact expected character sequence. -/
def expectChars : List Char → List Char → Option (List Char)
  | [], input => some input
  | _ :: _, [] => none
  | p :: ps, c :: cs => if c = p then expectChars ps cs else none

/-- Parse one or more key-value string pairs up to and including the closing
brace; `fuel` bounds the number of pairs. -/
def parsePairsAux : Nat → List Char → Option (Params × List Char)
  | 0, _ => none
  | fuel + 1, input =>
    match parseStr input with
    | none => none
    | some (k, r1) =>
      match r1 with
      | ':' :: ' ' :: r2 =>
        match parseStr r2 with
        | none => none
        | some (v, r3) =>
          match r3 with
          | c :: r4 =>
            if c = rbrace then some ([(k, v)], r4)
            else if c = ',' then
              match r4 with
              | ' ' :: r5 =>
                match parsePairsAux fuel r5 with
                | none => none
                | some (ps, r6) => some ((k, v) :: ps, r6)
              | _ => none
            else none
          | [] => none
      | _ => none

/-- Parse a JSON object of string-valued fields. -/
def parseObj (input : List Char) : Option (Params × List Char) :=
  match input with
  | c :: cs =>
    if c = lbrace then
      match cs with
      | d :: ds => if d = rbrace then some ([], ds) else parsePairsAux cs.length cs
      | [] => none
    else none
  | [] => none

/-- Parse a JSON string or `null`. -/
def parseOptStr (input : List Char) : Option (Option String × List Char) :=
  match input with
  | c :: cs =>
    if c = 'n' then
      match expectChars "ull".toList cs with
      | none => none
      | some rest => some (none, rest)
    else
      match parseStr (c :: cs) with
      | none => none
      | some (s, r) => some (some s, r)
  | [] => none

/-- Parse a JSON object of string fields or `null`. -/
def parseOptObj (input : List Char) : Option (Option Params × List Char) :=
  match input with
  | c :: cs =>
    if c = 'n' then
      match expectChars "ull".toList cs with
      | none => none
      | some rest => some (none, rest)
    else
      match parseObj (c :: cs) with
      | none => none
      | some (ps, r) => some (some ps, r)
  | [] => none

/-- Parse one serialised step dict. -/
def parseStep (input : List Char) : Option (PyStep × List Char) :=
  match expectChars stepKeyHead input with
  | none => none
  | some r1 =>
    match parseOptStr r1 with
    | none => none
    | some (tn, r2) =>
      match expectChars stepKeyMid r2 with
      | none => none
      | some r3 =>
        match parseOptObj r3 with
        | none => none
        | some (ps, r4) =>
          match r4 with
          | c :: r5 =>
            if c = rbrace then some ({ tool_name := tn, parameters := ps }, r5) else none
          | [] => none

/-- Parse one or more serialised steps up to and including the closing
bracket; `fuel` bounds the number of steps. -/
def parseStepsAux : Nat → List Char → Option (List PyStep × List Char)
  | 0, _ => none
  | fuel + 1, input =>
    match parseStep input with
    | none => none
    | some (st, r1) =>
      match r1 with
      | ']' :: r2 => some ([st], r2)
      | ',' :: ' ' :: r2 =>
        match parseStepsAux fuel r2 with
        | none => none
        | some (sts, r3) => some (st :: sts, r3)
      | _ => none

/-- Model of `json.loads` specialised to the step-array schema that `json.dumps`
produces in `save_successful_plan`; yields `none` on any input it cannot parse
completely, modelling a raised `JSONDecodeError`. -/
def loadsPlan (input : List Char) : Option (List PyStep) :=
  match input with
  | c :: cs =>
    if c = '[' then
      match cs with
      | d :: ds =>
        if d = ']' then (if ds = [] then some [] else none)
        else
          match parseStepsAux cs.length cs with
          | none => none
          | some (sts, r) => if r = [] then some sts else none
      | [] => none
    else none
  | [] => none

/-- One `Plan` node of the knowledge graph: the `issue_summary` property and
the `steps` property (a JSON string); `none` models a missing or null `steps`
property, on which `json.loads` raises `TypeError`. -/
structure PlanRecord where
  issue_summary : String
  steps : Option (List Char)
deriving DecidableEq

/-- The store of `Plan` nodes, in creation order. -/
abbrev PlanStore := List PlanRecord

/-- Model of `save_successful_plan`: `CREATE (p:Plan {issue_summary: ..., steps: json.dumps(plan)})`.
The `APPLIES_TO_FILE` relationships built from `file_paths` attach to `File`
nodes only and are never read back by `find_successful_plan`, so they are not
part of the record model. -/
def save_successful_plan (issue_summary : String) (plan : List PyStep)
    (file_paths : List String) (store : PlanStore) : PlanStore :=
  store ++ [{ issue_summary := issue_summary, steps := some (dumpsPlan plan) }]

/-- Model of `find_successful_plan`: `MATCH (p:Plan) ... ORDER BY rand() LIMIT 1` is an
arbitrary pick, modelled by the explicit selector `choice`; an empty result,
a missing `steps` property (`TypeError`) or an unparseable one
(`JSONDecodeError`) all yield `None`. The query ignores the issue argument. -/
def find_successful_plan (issue_summary : String) (choice : Nat)
    (store : PlanStore) : Option CachedPlanData :=
  match store.get? (choice % store.length) with
  | none => none
  | some record =>
    match record.steps with
    | none => none
    | some s =>
      match loadsPlan s with
      | none => none
      | some plan_steps => some { issue := record.issue_summary, plan := plan_steps }

theorem startsWithChars_iff (n : List Char) : ∀ h : List Char,
    startsWithChars n h = true ↔ ∃ r, h = n ++ r := by
  induction n with
  | nil => intro h; simp [startsWithChars]
  | cons a as ih =>
    intro h
    cases h with
    | nil => simp [startsWithChars]
    | cons b bs =>
      simp only [startsWithChars]
      by_cases hab : a = b
      · subst hab
        rw [if_pos rfl, ih]
        constructor
        · rintro ⟨r, rfl⟩; exact ⟨r, rfl⟩
        · rintro ⟨r, hr⟩
          rw [List.cons_append] at hr
          exact ⟨r, (List.cons.inj hr).2⟩
      · rw [if_neg hab]
        constructor
        · intro hfalse; exact (Bool.false_ne_true hfalse).elim
        · rintro ⟨r, hr⟩
          rw [List.cons_append] at hr
          exact (hab ((List.cons.inj hr).1).symm).elim

theorem hasSubstr_iff (n : List Char) : ∀ h : List Char,
    hasSubstr n h = true ↔ ∃ l r, h = l ++ (n ++ r) := by
  intro h
  induction h with
  | nil =>
    simp only [hasSubstr, List.isEmpty_iff]
    constructor
    · rintro rfl; exact ⟨[], [], rfl⟩
    · rintro ⟨l, r, hr⟩
      rcases List.append_eq_nil.mp hr.symm with ⟨rfl, h2⟩
      rcases List.append_eq_nil.mp h2 with ⟨rfl, rfl⟩
      rfl
  | cons c cs ih =>
    simp only [hasSubstr, Bool.or_eq_true, startsWithChars_iff, ih]
    constructor
    · rintro (⟨r, hr⟩ | ⟨l, r, hr⟩)
      · exact ⟨[], r, by simpa using hr⟩
      · exact ⟨c :: l, r, by simp [hr]⟩
    · rintro ⟨l, r, hr⟩
      cases l with
      | nil => exact Or.inl ⟨r, by simpa using hr⟩
      | cons x xs =>
        right
        rw [List.cons_append] at hr
        exact ⟨xs, r, (List.cons.inj hr).2⟩

theorem reviseMarker_ne_nil : reviseMarker ≠ [] := by decide

theorem marker_substring_ne_empty (raw : String)
    (hx : ∃ l r, raw.toList = l ++ (reviseMarker ++ r)) : raw ≠ "" := by
  intro hraw
  subst hraw
  obtain ⟨l, r, hr⟩ := hx
  rcases List.append_eq_nil.mp hr.symm with ⟨rfl, h2⟩
  rcases List.append_eq_nil.mp h2 with ⟨hm, rfl⟩
  exact reviseMarker_ne_nil hm

theorem reviewDecision_eq_revise_iff (raw : String) :
    reviewDecision raw = "REVISE" ↔ hasSubstr reviseMarker raw.toList = true := by
  unfold reviewDecision
  by_cases h : hasSubstr reviseMarker raw.toList = true
  · simp [h]
  · simp [h]

theorem should_continue_end_iff (s : AgentState) :
    should_continue s = "end" ↔ s.current_task_status = "COMPLETE" := by
  unfold should_continue
  by_cases h : s.current_task_status = "COMPLETE"
  · simp [h]
  · simp [h]

theorem mem_filePathsOfPlan (plan : List PyStep) (x : String) :
    x ∈ filePathsOfPlan plan ↔
      ∃ st ∈ plan, pyDictGet "file_path" (st.parameters.getD []) = some x := by
  simp [filePathsOfPlan, List.mem_dedup, List.mem_filterMap]

theorem filePathsOfPlan_ne_nil (plan : List PyStep) :
    filePathsOfPlan plan ≠ [] ↔
      ∃ st ∈ plan, pyDictGet "file_path" (st.parameters.getD []) ≠ none := by
  constructor
  · intro h
    obtain ⟨x, hx⟩ := List.exists_mem_of_ne_nil _ h
    obtain ⟨st, hst, hlook⟩ := (mem_filePathsOfPlan plan x).mp hx
    exact ⟨st, hst, by simp [hlook]⟩
  · rintro ⟨st, hst, hlook⟩
    obtain ⟨x, hx⟩ := Option.ne_none_iff_exists'.mp hlook
    exact List.ne_nil_of_mem ((mem_filePathsOfPlan plan x).mpr ⟨st, hst, hx⟩)

theorem filePathsOfPlan_nodup (plan : List PyStep) :
    (filePathsOfPlan plan).Nodup :=
  List.nodup_dedup _

theorem string_mk_toList (s : String) : String.mk s.toList = s := rfl

theorem parseStrBody_escStr (s : List Char) : ∀ rest : List Char,
    parseStrBody (escStr s ++ '"' :: rest) = some (s, rest) := by
  induction s with
  | nil =>
    intro rest
    rw [escStr, List.nil_append, parseStrBody.eq_def]
    simp
  | cons c cs ih =>
    intro rest
    by_cases h : c = '"' ∨ c = '\\'
    · have hsh : escStr (c :: cs) ++ '"' :: rest = '\\' :: c :: (escStr cs ++ '"' :: rest) := by
        rw [escStr, escChar, if_pos h]
        simp
      rw [hsh, parseStrBody.eq_def]
      simp [ih rest]
    · have h1 : c ≠ '"' := fun hc => h (Or.inl hc)
      have h2 : c ≠ '\\' := fun hc => h (Or.inr hc)
      have hsh : escStr (c :: cs) ++ '"' :: rest = c :: (escStr cs ++ '"' :: rest) := by
        rw [escStr, escChar, if_neg h]
        simp
      rw [hsh, parseStrBody.eq_def]
      simp [h1, h2, ih rest]

theorem parseStr_dumpStr (s : String) (rest : List Char) :
    parseStr (dumpStr s ++ rest) = some (s, rest) := by
  have hsh : dumpStr s ++ rest = '"' :: (escStr s.toList ++ '"' :: rest) := by
    rw [dumpStr]
    simp
  rw [hsh, parseStr]
  simp [parseStrBody_escStr, string_mk_toList]

theorem expectChars_append (pat : List Char) : ∀ rest : List Char,
    expectChars pat (pat ++ rest) = some rest := by
  induction pat with
  | nil => intro rest; rfl
  | cons p ps ih => intro rest; simp [expectChars, ih]

theorem dumpStr_length (s : String) : (dumpStr s).length = (escStr s.toList).length + 2 := by
  rw [dumpStr]
  simp

theorem dumpPairs_length_ge (ps : Params) : ps.length ≤ (dumpPairs ps).length := by
  induction ps with
  | nil => simp [dumpPairs]
  | cons kv tail ih =>
    obtain ⟨k, v⟩ := kv
    cases tail with
    | nil =>
      rw [dumpPairs]
      simp [dumpStr_length]
      omega
    | cons kv2 t2 =>
      rw [dumpPairs]
      simp only [List.length_append, List.length_cons, dumpStr_length, List.length_cons]
      simp at ih ⊢
      omega

theorem parsePairsAux_dump : ∀ (ps : Params) (fuel : Nat) (rest : List Char),
    ps ≠ [] → ps.length ≤ fuel →
    parsePairsAux fuel (dumpPairs ps ++ rbrace :: rest) = some (ps, rest) := by
  intro ps
  induction ps with
  | nil => intro fuel rest hne _; exact absurd rfl hne
  | cons kv tail ih =>
    intro fuel rest _ hfuel
    obtain ⟨k, v⟩ := kv
    cases fuel with
    | zero => simp at hfuel
    | succ f =>
      cases tail with
      | nil =>
        have hsh : dumpPairs [(k, v)] ++ rbrace :: rest
            = dumpStr k ++ ':' :: ' ' :: (dumpStr v ++ rbrace :: rest) := by
          rw [dumpPairs]
          simp
        rw [hsh, parsePairsAux.eq_def]
        simp [parseStr_dumpStr]
      | cons kv2 t2 =>
        have hcomma : (',' : Char) ≠ rbrace := by decide
        have hsh : dumpPairs ((k, v) :: kv2 :: t2) ++ rbrace :: rest
            = dumpStr k ++ ':' :: ' ' :: (dumpStr v ++ ',' :: ' ' ::
                (dumpPairs (kv2 :: t2) ++ rbrace :: rest)) := by
          rw [dumpPairs]
          simp
        have ihr := ih f rest (by simp) (by
          simp only [List.length_cons] at hfuel ⊢
          omega)
        rw [hsh, parsePairsAux.eq_def]
        simp [parseStr_dumpStr, hcomma, ihr]

theorem parseObj_dumpObj (ps : Params) (rest : List Char) :
    parseObj (dumpObj ps ++ rest) = some (ps, rest) := by
  cases ps with
  | nil =>
    have hsh : dumpObj [] ++ rest = lbrace :: rbrace :: rest := by
      rw [dumpObj, dumpPairs]
      simp
    rw [hsh]
    simp [parseObj]
  | cons kv tail =>
    obtain ⟨k, v⟩ := kv
    have hquote : ∃ u, dumpPairs ((k, v) :: tail) = '"' :: u := by
      cases tail with
      | nil =>
        refine ⟨escStr k.toList ++ '"' :: ':' :: ' ' :: dumpStr v, ?_⟩
        rw [dumpPairs, dumpStr]
        simp
      | cons kv2 t2 =>
        refine ⟨escStr k.toList ++ '"' :: ':' :: ' ' ::
          (dumpStr v ++ ',' :: ' ' :: dumpPairs (kv2 :: t2)), ?_⟩
        rw [dumpPairs, dumpStr]
        simp
    obtain ⟨u, hu⟩ := hquote
    have hne : ('"' : Char) ≠ rbrace := by decide
    have hsh : dumpObj ((k, v) :: tail) ++ rest
        = lbrace :: (dumpPairs ((k, v) :: tail) ++ rbrace :: rest) := by
      rw [dumpObj]
      simp
    have hlen : ((k, v) :: tail).length ≤ (dumpPairs ((k, v) :: tail) ++ rbrace :: rest).length := by
      have hge := dumpPairs_length_ge ((k, v) :: tail)
      simp only [List.length_append, List.length_cons] at hge ⊢
      omega
    rw [hsh]
    rw [hu] at hlen ⊢
    simp only [parseObj, if_pos rfl, if_neg hne]
    rw [← hu] at hlen ⊢
    exact parsePairsAux_dump ((k, v) :: tail) _ rest (by simp) hlen

theorem parseStr_quote_body (s : String) (rest : List Char) :
    parseStr ('"' :: (escStr s.data ++ '"' :: rest)) = some (s, rest) := by
  rw [parseStr]
  have hrt := parseStrBody_escStr s.toList rest
  simp at hrt
  simp [hrt]

theorem parseOptStr_dump (o : Option String) (rest : List Char) :
    parseOptStr (dumpOptStr o ++ rest) = some (o, rest) := by
  cases o with
  | none =>
    have hexp : expectChars ['u', 'l', 'l'] ('u' :: 'l' :: 'l' :: rest) = some rest :=
      expectChars_append "ull".toList rest
    have hsh : dumpOptStr none ++ rest = 'n' :: ("ull".toList ++ rest) := rfl
    rw [hsh, parseOptStr]
    simp [hexp]
  | some s =>
    have hq : ('"' : Char) ≠ 'n' := by decide
    have hsh : dumpOptStr (some s) ++ rest = '"' :: (escStr s.toList ++ '"' :: rest) := by
      rw [dumpOptStr, dumpStr]
      simp
    rw [hsh, parseOptStr]
    simp [hq, parseStr_quote_body]

theorem parseOptObj_dump (o : Option Params) (rest : List Char) :
    parseOptObj (dumpOptObj o ++ rest) = some (o, rest) := by
  cases o with
  | none =>
    have hexp : expectChars ['u', 'l', 'l'] ('u' :: 'l' :: 'l' :: rest) = some rest :=
      expectChars_append "ull".toList rest
    have hsh : dumpOptObj none ++ rest = 'n' :: ("ull".toList ++ rest) := rfl
    rw [hsh, parseOptObj]
    simp [hexp]
  | some ps =>
    have hb : lbrace ≠ 'n' := by decide
    have hobj := parseObj_dumpObj ps rest
    have hsh : dumpOptObj (some ps) ++ rest = lbrace :: (dumpPairs ps ++ rbrace :: rest) := by
      rw [dumpOptObj, dumpObj]
      simp
    have hfold : dumpObj ps ++ rest = lbrace :: (dumpPairs ps ++ rbrace :: rest) := by
      rw [dumpObj]
      simp
    rw [hfold] at hobj
    rw [hsh, parseOptObj]
    simp [hb, hobj]

theorem parseStep_dump (st : PyStep) (rest : List Char) :
    parseStep (dumpStep st ++ rest) = some (st, rest) := by
  obtain ⟨tn, ps⟩ := st
  have hsh : dumpStep ⟨tn, ps⟩ ++ rest
      = stepKeyHead ++ (dumpOptStr tn ++ (stepKeyMid ++ (dumpOptObj ps ++ rbrace :: rest))) := by
    rw [dumpStep]
    simp
  rw [hsh, parseStep]
  simp [expectChars_append, parseOptStr_dump, parseOptObj_dump]

theorem dumpStep_length_pos (st : PyStep) : 1 ≤ (dumpStep st).length := by
  rw [dumpStep]
  simp [stepKeyHead]

theorem dumpStepsSep_length_ge (sts : List PyStep) : sts.length ≤ (dumpStepsSep sts).length := by
  induction sts with
  | nil => simp [dumpStepsSep]
  | cons st tail ih =>
    cases tail with
    | nil =>
      rw [dumpStepsSep]
      simpa using dumpStep_length_pos st
    | cons st2 t2 =>
      rw [dumpStepsSep]
      have h1 := dumpStep_length_pos st
      simp only [List.length_append, List.length_cons] at ih ⊢
      simp at ih ⊢
      omega

theorem parseStepsAux_dump : ∀ (sts : List PyStep) (fuel : Nat) (rest : List Char),
    sts ≠ [] → sts.length ≤ fuel →
    parseStepsAux fuel (dumpStepsSep sts ++ ']' :: rest) = some (sts, rest) := by
  intro sts
  induction sts with
  | nil => intro fuel rest hne _; exact absurd rfl hne
  | cons st tail ih =>
    intro fuel rest _ hfuel
    cases fuel with
    | zero => simp at hfuel
    | succ f =>
      cases tail with
      | nil =>
        have hsh : dumpStepsSep [st] ++ ']' :: rest = dumpStep st ++ ']' :: rest := by
          rw [dumpStepsSep]
          simp
        rw [hsh, parseStepsAux.eq_def]
        simp [parseStep_dump]
      | cons st2 t2 =>
        have hsh : dumpStepsSep (st :: st2 :: t2) ++ ']' :: rest
            = dumpStep st ++ ',' :: ' ' :: (dumpStepsSep (st2 :: t2) ++ ']' :: rest) := by
          rw [dumpStepsSep]
          simp
        have ihr := ih f rest (by simp) (by
          simp only [List.length_cons] at hfuel ⊢
          omega)
        rw [hsh, parseStepsAux.eq_def]
        simp [parseStep_dump, ihr]

theorem loadsPlan_dumpsPlan (plan : List PyStep) :
    loadsPlan (dumpsPlan plan) = some plan := by
  cases plan with
  | nil => rfl
  | cons st tail =>
    have hquote : ∃ u, dumpStepsSep (st :: tail) = lbrace :: u := by
      cases tail with
      | nil =>
        refine ⟨('"' :: ("tool_name".toList ++ ['"', ':', ' '])) ++ dumpOptStr st.tool_name
          ++ stepKeyMid ++ dumpOptObj st.parameters ++ [rbrace], ?_⟩
        rw [dumpStepsSep, dumpStep, stepKeyHead]
        simp
      | cons st2 t2 =>
        refine ⟨('"' :: ("tool_name".toList ++ ['"', ':', ' '])) ++ dumpOptStr st.tool_name
          ++ stepKeyMid ++ dumpOptObj st.parameters ++ [rbrace]
          ++ ',' :: ' ' :: dumpStepsSep (st2 :: t2), ?_⟩
        rw [dumpStepsSep, dumpStep, stepKeyHead]
        simp
    obtain ⟨u, hu⟩ := hquote
    have hb : lbrace ≠ ']' := by decide
    have hsh : dumpsPlan (st :: tail) = '[' :: (dumpStepsSep (st :: tail) ++ ']' :: ([] : List Char)) := by
      rw [dumpsPlan]
    have hcs : dumpStepsSep (st :: tail) ++ ']' :: ([] : List Char)
        = lbrace :: (u ++ ']' :: ([] : List Char)) := by
      rw [hu]
      simp
    have hlen : (st :: tail).length ≤ (lbrace :: (u ++ ']' :: ([] : List Char))).length := by
      have hge := dumpStepsSep_length_ge (st :: tail)
      rw [hu] at hge
      simp only [List.length_append, List.length_cons] at hge ⊢
      omega
    have hparse := parseStepsAux_dump (st :: tail)
      ((lbrace :: (u ++ ']' :: ([] : List Char))).length) ([] : List Char) (by simp) hlen
    rw [hcs] at hparse
    simp at hparse
    rw [hsh, loadsPlan.eq_def, hcs]
    simp [hb, hparse]

/-- Example capability used in concrete checks: a write that succeeds. -/
def exWriteTool : PyTool := fun _ => Except.ok "written"

/-- Example registry with only `write_file` registered. -/
def exToolMap : ToolMap := fun n => if n = "write_file" then some exWriteTool else none

/-- Example well-formed step that carries a `file_path` parameter. -/
def exStep : PyStep :=
  { tool_name := some "write_file"
    parameters := some [("file_path", "main.py"), ("content", "x = 1")] }

/-- Example one-step plan. -/
def exPlan : List PyStep := [exStep]

/-- Example initial state, as `bug_fixing_agent.py` seeds a run. -/
def exState0 : AgentState :=
  { issue_summary := "fix bug"
    repo_url := "https://example.org/repo.git"
    local_path := "repo"
    plan := []
    execution_results := []
    review_feedback := none
    current_task_status := "" }

/-- Example mid-run state with a stale trace and stale feedback. -/
def exStaleState : AgentState :=
  { issue_summary := "fix bug"
    repo_url := "https://example.org/repo.git"
    local_path := "repo"
    plan := [exStep]
    execution_results := ["old result"]
    review_feedback := some "note"
    current_task_status := "EXECUTING" }

/-- Example step naming an unregistered tool. -/
def bogusStep : PyStep := { tool_name := some "bogus", parameters := some [] }

/-- Example malformed step lacking the `tool_name` key. -/
def noNameStep : PyStep := { tool_name := none, parameters := some [] }

/-- Example malformed step lacking the `parameters` key. -/
def noParamsStep : PyStep := { tool_name := some "write_file", parameters := none }

/-- Claim C2: for every plan, including the empty one, the executor returns a
trace with exactly one outcome per step, the i-th outcome being the string
recorded for the i-th step in plan order; the model function is total, which
reflects that every per-step fault is caught inside the loop. -/
theorem c2_execute_trace_length (tm : ToolMap) (plan : List PyStep) :
    (executeResults tm plan).length = plan.length
    ∧ executeResults tm [] = []
    ∧ ∀ i : Nat, (executeResults tm plan).get? i = (plan.get? i).map (stepResult tm) := by
  refine ⟨by simp [executeResults], rfl, ?_⟩
  intro i
  simp [executeResults]

/-- Claim C5: an unregistered tool name yields a recorded not-found outcome, a
raising capability yields a recorded error outcome, and in both cases every
other step of the plan still gets its own outcome (no fault propagates). -/
theorem c5_executor_fault_isolation (tm : ToolMap) (plan : List PyStep) :
    ((executeResults tm plan).length = plan.length
      ∧ ∀ i : Nat, (executeResults tm plan).get? i = (plan.get? i).map (stepResult tm))
    ∧ (∀ step : PyStep, lookupTool tm step.tool_name = none →
        stepResult tm step = "Error: Tool \x27" ++ pyStr step.tool_name ++ "\x27 not found.")
    ∧ (∀ (step : PyStep) (f : PyTool) (e : String), lookupTool tm step.tool_name = some f →
        f (step.parameters.getD []) = Except.error e →
        stepResult tm step
          = "Error executing tool \x27" ++ pyStr step.tool_name ++ "\x27: " ++ e) := by
  refine ⟨⟨by simp [executeResults], ?_⟩, ?_, ?_⟩
  · intro i
    simp [executeResults]
  · intro step h
    simp [stepResult, h]
  · intro step f e hf he
    simp [stepResult, hf, he]

/-- Witness for C5 at the example taken from the spec: a bogus tool followed by a
registered tool still yields one outcome per step. -/
theorem c5_executor_fault_isolation_witness :
    stepResult exToolMap bogusStep = "Error: Tool \x27bogus\x27 not found."
    ∧ (executeResults exToolMap [bogusStep, exStep]).length = 2 := by
  refine ⟨(c5_executor_fault_isolation exToolMap [bogusStep, exStep]).2.1 bogusStep rfl, ?_⟩
  exact ((c5_executor_fault_isolation exToolMap [bogusStep, exStep]).1.1).trans rfl

/-- Claim C9: the executor is total over malformed steps: a missing
`tool_name` key resolves to no tool and records the not-found outcome
(Python renders `None` into the message), a missing `parameters` key
defaults to the empty dict, and the trace still gets one outcome per step. -/
theorem c9_malformed_steps_total (tm : ToolMap) (plan : List PyStep) :
    (executeResults tm plan).length = plan.length
    ∧ (∀ step : PyStep, step.tool_name = none →
        stepResult tm step = "Error: Tool \x27None\x27 not found.")
    ∧ (∀ (step : PyStep) (f : PyTool), step.parameters = none →
        lookupTool tm step.tool_name = some f →
        stepResult tm step = (match f [] with
          | Except.ok r => r
          | Except.error e =>
            "Error executing tool \x27" ++ pyStr step.tool_name ++ "\x27: " ++ e)) := by
  refine ⟨by simp [executeResults], ?_, ?_⟩
  · intro step h
    obtain ⟨tn, ps⟩ := step
    simp only at h
    subst h
    rfl
  · intro step f hp hf
    obtain ⟨tn, ps⟩ := step
    simp only at hp
    subst hp
    simp [stepResult, hf]

/-- Witness for C9: both malformed shapes on the example registry. -/
theorem c9_malformed_steps_total_witness :
    stepResult exToolMap noNameStep = "Error: Tool \x27None\x27 not found."
    ∧ stepResult exToolMap noParamsStep = "written" := by
  refine ⟨(c9_malformed_steps_total exToolMap [noNameStep]).2.1 noNameStep rfl, ?_⟩
  exact ((c9_malformed_steps_total exToolMap [noParamsStep]).2.2 noParamsStep exWriteTool rfl rfl).trans rfl

/-- Claim C7: the recorded verdict is always exactly COMPLETE or REVISE, and a
REVISE verdict always comes with the raw reviewer text recorded as feedback,
which is then a non-empty string (it contains the marker). -/
theorem c7_verdict_dichotomy (raw : String) (s : AgentState) :
    ((review_step raw s).current_task_status = "COMPLETE"
      ∨ (review_step raw s).current_task_status = "REVISE")
    ∧ ((review_step raw s).current_task_status = "REVISE" →
        (review_step raw s).review_feedback = some raw ∧ raw ≠ "") := by
  have hst : (review_step raw s).current_task_status = reviewDecision raw := rfl
  constructor
  · rw [hst]
    by_cases h : hasSubstr reviseMarker raw.toList = true
    · right
      unfold reviewDecision
      rw [if_pos h]
    · left
      unfold reviewDecision
      rw [if_neg h]
  · intro hrev
    refine ⟨rfl, ?_⟩
    rw [hst] at hrev
    have hsub : hasSubstr reviseMarker raw.toList = true := by
      by_contra hns
      unfold reviewDecision at hrev
      rw [if_neg hns] at hrev
      exact absurd hrev (by decide)
    exact marker_substring_ne_empty raw ((hasSubstr_iff reviseMarker raw.toList).mp hsub)

/-- Witness for C7: a marker-bearing review is REVISE with non-empty feedback. -/
theorem c7_verdict_dichotomy_witness :
    (review_step "\u00e2\u0152 REVISE: wrong file" exState0).review_feedback
        = some "\u00e2\u0152 REVISE: wrong file"
    ∧ ("\u00e2\u0152 REVISE: wrong file" : String) ≠ "" := by
  exact (c7_verdict_dichotomy "\u00e2\u0152 REVISE: wrong file" exState0).2 (by decide)

/-- Claim C8 counterexample: raw reviewer text containing the real-emoji
substring "❌ REVISE" (U+274C), which the claim says must be classified
REVISE, is in fact classified COMPLETE - the program scans for the mojibake
literal `reviseMarker`, a different string, as the third conjunct records. -/
theorem c8_counterexample :
    (review_step "❌ REVISE: wrong file" exState0).current_task_status = "COMPLETE"
    ∧ (∃ l r, "❌ REVISE: wrong file".toList = l ++ ("❌ REVISE".toList ++ r))
    ∧ "❌ REVISE".toList ≠ reviseMarker := by
  refine ⟨by decide, ⟨[], ": wrong file".toList, by decide⟩, by decide⟩

/-- Claim C8 (amended): the verdict is REVISE exactly when the raw reviewer
output contains the substring `reviseMarker` - the mojibake literal
"âŒ REVISE" actually present at line 408 of the source, not the real emoji
"❌ REVISE"; any other output, however malformed - including text bearing the
real emoji - is classified COMPLETE and routes the loop to the terminal
save-plan edge. -/
theorem c8_revise_marker_classification (raw : String) (s : AgentState) :
    ((review_step raw s).current_task_status = "REVISE"
      ↔ ∃ l r, raw.toList = l ++ (reviseMarker ++ r))
    ∧ ((¬ ∃ l r, raw.toList = l ++ (reviseMarker ++ r)) →
        (review_step raw s).current_task_status = "COMPLETE"
        ∧ should_continue (review_step raw s) = "end") := by
  have hst : (review_step raw s).current_task_status = reviewDecision raw := rfl
  constructor
  · rw [hst, reviewDecision_eq_revise_iff, hasSubstr_iff]
  · intro hn
    have hb : ¬ hasSubstr reviseMarker raw.toList = true := by
      rw [hasSubstr_iff]
      exact hn
    have hc : reviewDecision raw = "COMPLETE" := by
      unfold reviewDecision
      rw [if_neg hb]
    refine ⟨hst ▸ hc, ?_⟩
    rw [should_continue_end_iff]
    exact hst ▸ hc

/-- Witness for C8: off-format reviewer text lacking both markers is COMPLETE
and ends the loop. -/
theorem c8_revise_marker_classification_witness :
    (review_step "garbage output" exState0).current_task_status = "COMPLETE"
    ∧ should_continue (review_step "garbage output" exState0) = "end" := by
  refine (c8_revise_marker_classification "garbage output" exState0).2 ?_
  intro hex
  exact (by decide : ¬ hasSubstr reviseMarker "garbage output".toList = true)
    ((hasSubstr_iff reviseMarker "garbage output".toList).mpr hex)

/-- Example planner oracle whose generation call raises. -/
def exFailGen : PlannerMessage → Except String (List PyStep) := fun _ => Except.error "timeout"

/-- Claim C3 counterexample: on the generation-failure path the update returned
by `plan_step` does not include an `execution_results` key, so under the
LangGraph merge the stale trace survives - it is not set to the empty list as
the claim states. -/
theorem c3_counterexample :
    (plan_step none exFailGen exStaleState).execution_results = ["old result"]
    ∧ (plan_step none exFailGen exStaleState).execution_results ≠ ([] : List String) := by
  exact ⟨rfl, by decide⟩

/-- Claim C3 (amended): `plan_step` always clears the feedback; on the
successful-generation path it installs the generated plan and clears the trace;
on the generation-failure path it empties the plan and clears the feedback but
leaves the trace field untouched. -/
theorem c3_plan_step_updates (findResult : Option CachedPlanData)
    (gen : PlannerMessage → Except String (List PyStep)) (s : AgentState) :
    (plan_step findResult gen s).review_feedback = none
    ∧ (∀ p : List PyStep, gen (plannerCall findResult s).message = Except.ok p →
        plan_step findResult gen s
          = { s with plan := p, execution_results := [], review_feedback := none })
    ∧ (∀ e : String, gen (plannerCall findResult s).message = Except.error e →
        plan_step findResult gen s = { s with plan := [], review_feedback := none }) := by
  cases hg : gen (plannerCall findResult s).message with
  | ok p =>
    refine ⟨?_, ?_, ?_⟩
    · simp [plan_step, hg]
    · intro q hq
      injection hq with h2
      subst h2
      simp [plan_step, hg]
    · intro e he
      simp at he
  | error e =>
    refine ⟨?_, ?_, ?_⟩
    · simp [plan_step, hg]
    · intro q hq
      simp at hq
    · intro e2 he2
      simp [plan_step, hg]

/-- Witness for the amended C3 at a concrete failing generation. -/
theorem c3_plan_step_updates_witness :
    (plan_step none exFailGen exStaleState).review_feedback = none
    ∧ plan_step none exFailGen exStaleState
        = { exStaleState with plan := [], review_feedback := none } := by
  have h := c3_plan_step_updates none exFailGen exStaleState
  exact ⟨h.1, h.2.2 "timeout" rfl⟩

/-- From a continue-routing after review, the raw reviewer output contained the
revise marker. -/
theorem continue_implies_marker (raw : String) (s : AgentState)
    (h : should_continue (review_step raw s) = "continue") :
    hasSubstr reviseMarker raw.toList = true := by
  by_contra hns
  have hc : reviewDecision raw = "COMPLETE" := by
    unfold reviewDecision
    rw [if_neg hns]
  have hst : (review_step raw s).current_task_status = "COMPLETE" := hc
  unfold should_continue at h
  rw [if_pos hst] at h
  exact absurd h (by decide)

/-- Claim C4: every re-entry to the planner after a Revise routing runs in
recovery mode - the prompt is built from the failed plan, its full trace, and
the raw rejection text, and the cache is not consulted; conversely the cache is
consulted exactly when the state carries no marker-bearing feedback. -/
theorem c4_recovery_after_revise (s : AgentState) (raw : String)
    (findResult : Option CachedPlanData)
    (h : should_continue (review_step raw s) = "continue") :
    ((plannerCall findResult (review_step raw s)).cacheConsulted = false
      ∧ (plannerCall findResult (review_step raw s)).message
          = PlannerMessage.recovery s.issue_summary s.plan s.execution_results raw)
    ∧ ∀ (s2 : AgentState) (fr : Option CachedPlanData),
        (plannerCall fr s2).cacheConsulted = true
          ↔ ¬ ∃ fb, s2.review_feedback = some fb
              ∧ ∃ l r, fb.toList = l ++ (reviseMarker ++ r) := by
  have hmark := continue_implies_marker raw s h
  have hmarkd : hasSubstr reviseMarker raw.data = true := hmark
  have hraw : raw ≠ "" :=
    marker_substring_ne_empty raw ((hasSubstr_iff reviseMarker raw.toList).mp hmark)
  have hfb : (review_step raw s).review_feedback = some raw := rfl
  have hrt : recoveryTriggered (review_step raw s).review_feedback = true := by
    rw [hfb, recoveryTriggered]
    simp [hraw, hmarkd]
  constructor
  · constructor
    · simp [plannerCall, hrt]
    · simp [plannerCall, hrt]
      exact ⟨rfl, rfl, rfl, rfl⟩
  · intro s2 fr
    constructor
    · intro hcc
      rintro ⟨fb, hfb2, hsub⟩
      have hmark2 : hasSubstr reviseMarker fb.data = true :=
        (hasSubstr_iff reviseMarker fb.toList).mpr hsub
      have hne2 : fb ≠ "" := marker_substring_ne_empty fb hsub
      have hrt2 : recoveryTriggered s2.review_feedback = true := by
        rw [hfb2, recoveryTriggered]
        simp [hne2, hmark2]
      simp [plannerCall, hrt2] at hcc
    · intro hno
      have hrt2 : recoveryTriggered s2.review_feedback = false := by
        cases hfb2 : s2.review_feedback with
        | none => rfl
        | some fb =>
          rw [recoveryTriggered]
          by_cases hm : hasSubstr reviseMarker fb.toList = true
          · exact absurd ⟨fb, hfb2, (hasSubstr_iff reviseMarker fb.toList).mp hm⟩ hno
          · have hmf : hasSubstr reviseMarker fb.data = false := by
              cases hx : hasSubstr reviseMarker fb.toList with
              | false => exact hx
              | true => exact absurd hx hm
            simp [hmf]
      cases fr with
      | none => simp [plannerCall, hrt2]
      | some cached => simp [plannerCall, hrt2]

/-- Witness for C4: a concrete Revise routing enters recovery mode without
consulting the cache. -/
theorem c4_recovery_after_revise_witness :
    (plannerCall (some { issue := "old issue", plan := exPlan })
        (review_step "\u00e2\u0152 REVISE: wrong file" exStaleState)).cacheConsulted = false
    ∧ (plannerCall (some { issue := "old issue", plan := exPlan })
        (review_step "\u00e2\u0152 REVISE: wrong file" exStaleState)).message
        = PlannerMessage.recovery "fix bug" [exStep] ["old result"] "\u00e2\u0152 REVISE: wrong file" := by
  exact (c4_recovery_after_revise exStaleState "\u00e2\u0152 REVISE: wrong file"
    (some { issue := "old issue", plan := exPlan }) (by decide)).1

/-- Claim C6: on a store holding exactly one saved record, a save followed by a
find (under any random pick and any query issue, which the retrieval query
ignores) returns the issue and the plan of that record, round-tripped losslessly
through the JSON serialisation of its steps. -/
theorem c6_save_find_roundtrip (issue : String) (plan : List PyStep)
    (file_paths : List String) (query_issue : String) (choice : Nat) :
    find_successful_plan query_issue choice
        (save_successful_plan issue plan file_paths ([] : PlanStore))
      = some { issue := issue, plan := plan } := by
  unfold save_successful_plan find_successful_plan
  simp [Nat.mod_one, loadsPlan_dumpsPlan]

/-- Example store whose only record has no steps property. -/
def exBadStore : PlanStore := [{ issue_summary := "old issue", steps := none }]

/-- Claim C10: a record whose steps property is missing or unparseable makes
`find_successful_plan` return `None` - indistinguishable from a cache miss -
and a planner state with no feedback and a `None` cache result builds the
fresh-mode prompt. -/
theorem c10_bad_steps_cache_miss (query_issue : String) (choice : Nat)
    (store : PlanStore) (record : PlanRecord)
    (hrec : store.get? (choice % store.length) = some record)
    (hbad : record.steps = none ∨ ∃ s, record.steps = some s ∧ loadsPlan s = none) :
    find_successful_plan query_issue choice store = none
    ∧ ∀ s2 : AgentState, s2.review_feedback = none →
        (plannerCall none s2).message = PlannerMessage.fresh s2.issue_summary
        ∧ (plannerCall none s2).cacheConsulted = true := by
  constructor
  · unfold find_successful_plan
    rw [hrec]
    rcases hbad with hnone | ⟨s, hs, hl⟩
    · simp [hnone]
    · simp [hs, hl]
  · intro s2 hfb
    have hrt : recoveryTriggered s2.review_feedback = false := by
      rw [hfb]
      rfl
    constructor
    · simp [plannerCall, hrt]
    · simp [plannerCall, hrt]

/-- Witness for C10 on a concrete store with a steps-less record and the
example fresh state. -/
theorem c10_bad_steps_cache_miss_witness :
    find_successful_plan "query" 0 exBadStore = none
    ∧ (plannerCall none exState0).message = PlannerMessage.fresh "fix bug" := by
  have h := c10_bad_steps_cache_miss "query" 0 exBadStore
    { issue_summary := "old issue", steps := none } rfl (Or.inl rfl)
  exact ⟨h.1, (h.2 exState0 rfl).1⟩

/-- Claim C1: in every run of the loop that terminates, the terminal routing
guarantees the final reviewer verdict is COMPLETE, and a record is saved to the
plan store iff the final plan is non-empty and some step parameters mapping carries a
file_path entry; the saved issue and plan are those of the final state, and the saved
touched-files set is exactly the distinct file_path values across the steps. -/
theorem c1_persistence_gating (tm : ToolMap) (find : Nat → Option CachedPlanData)
    (gen : Nat → PlannerMessage → Except String (List PyStep)) (rev : Nat → String) :
    ∀ (fuel k : Nat) (s0 sf : AgentState) (so : Option SaveCall),
    runLoop tm find gen rev fuel k s0 = some (sf, so) →
    sf.current_task_status = "COMPLETE"
    ∧ (so.isSome ↔ (sf.plan ≠ []
        ∧ ∃ st ∈ sf.plan, pyDictGet "file_path" (st.parameters.getD []) ≠ none))
    ∧ ∀ c : SaveCall, so = some c →
        c.issue = sf.issue_summary ∧ c.plan = sf.plan ∧ c.files.Nodup
        ∧ ∀ x : String, x ∈ c.files
            ↔ ∃ st ∈ sf.plan, pyDictGet "file_path" (st.parameters.getD []) = some x := by
  intro fuel
  induction fuel with
  | zero =>
    intro k s0 sf so h
    rw [runLoop] at h
    exact absurd h (by simp)
  | succ n ih =>
    intro k s0 sf so h
    rw [runLoop] at h
    by_cases hc : should_continue
        (review_step (rev k) (execute_step tm (plan_step (find k) (gen k) s0))) = "end"
    · rw [if_pos hc] at h
      have hps : save_plan_step
          (review_step (rev k) (execute_step tm (plan_step (find k) (gen k) s0))) = (sf, so) :=
        Option.some.inj h
      set s3 := review_step (rev k) (execute_step tm (plan_step (find k) (gen k) s0)) with hs3
      have hstatus : s3.current_task_status = "COMPLETE" := (should_continue_end_iff s3).mp hc
      unfold save_plan_step at hps
      by_cases hcond : s3.plan ≠ [] ∧ filePathsOfPlan s3.plan ≠ []
      · rw [if_pos hcond] at hps
        have h1 : s3 = sf := congrArg Prod.fst hps
        have h2 : some (⟨s3.issue_summary, s3.plan, filePathsOfPlan s3.plan⟩ : SaveCall) = so :=
          congrArg Prod.snd hps
        subst h1
        refine ⟨hstatus, ?_, ?_⟩
        · rw [← h2]
          simp only [Option.isSome_some, true_iff]
          exact ⟨hcond.1, (filePathsOfPlan_ne_nil s3.plan).mp hcond.2⟩
        · intro c hcso
          rw [← h2] at hcso
          have hc2 := Option.some.inj hcso
          subst hc2
          exact ⟨rfl, rfl, filePathsOfPlan_nodup s3.plan,
            fun x => mem_filePathsOfPlan s3.plan x⟩
      · rw [if_neg hcond] at hps
        have h1 : s3 = sf := congrArg Prod.fst hps
        have h2 : (none : Option SaveCall) = so := congrArg Prod.snd hps
        subst h1
        refine ⟨hstatus, ?_, ?_⟩
        · rw [← h2]
          simp only [Option.isSome_none, Bool.false_eq_true, false_iff]
          intro hcontra
          exact hcond ⟨hcontra.1, (filePathsOfPlan_ne_nil s3.plan).mpr hcontra.2⟩
        · intro c hcso
          rw [← h2] at hcso
          exact absurd hcso (by simp)
    · rw [if_neg hc] at h
      exact ih (k + 1) _ sf so h

/-- Example planner oracle: always proposes the one-step write plan. -/
def exGen : Nat → PlannerMessage → Except String (List PyStep) := fun _ _ => Except.ok exPlan

/-- Example reviewer oracle: always approves. -/
def exRev : Nat → String := fun _ => "✅ COMPLETE"

/-- Example cache oracle: always a miss. -/
def exFind : Nat → Option CachedPlanData := fun _ => none

/-- The final state of the example run. -/
def exFinal : AgentState :=
  { issue_summary := "fix bug"
    repo_url := "https://example.org/repo.git"
    local_path := "repo"
    plan := exPlan
    execution_results := ["written"]
    review_feedback := some "✅ COMPLETE"
    current_task_status := "COMPLETE" }

/-- The save call of the example run. -/
def exSave : SaveCall := { issue := "fix bug", plan := exPlan, files := ["main.py"] }

/-- Witness for C1: a one-round approving run saves exactly the distinct
file_path value of its plan. -/
theorem c1_persistence_gating_witness :
    runLoop exToolMap exFind exGen exRev 1 0 exState0 = some (exFinal, some exSave)
    ∧ (exFinal.current_task_status = "COMPLETE"
      ∧ ((some exSave : Option SaveCall).isSome ↔ (exFinal.plan ≠ []
          ∧ ∃ st ∈ exFinal.plan, pyDictGet "file_path" (st.parameters.getD []) ≠ none))
      ∧ ∀ c : SaveCall, (some exSave : Option SaveCall) = some c →
          c.issue = exFinal.issue_summary ∧ c.plan = exFinal.plan ∧ c.files.Nodup
          ∧ ∀ x : String, x ∈ c.files
              ↔ ∃ st ∈ exFinal.plan, pyDictGet "file_path" (st.parameters.getD []) = some x) := by
  have hrun : runLoop exToolMap exFind exGen exRev 1 0 exState0 = some (exFinal, some exSave) := by
    decide
  exact ⟨hrun, c1_persistence_gating exToolMap exFind exGen exRev 1 0 exState0 exFinal
    (some exSave) hrun⟩

/-- Witness for C2: trace lengths on a concrete plan and on the empty plan. -/
theorem c2_execute_trace_length_witness :
    (executeResults exToolMap [exStep]).length = 1
    ∧ executeResults exToolMap [] = [] :=
  ⟨((c2_execute_trace_length exToolMap [exStep]).1).trans rfl,
    (c2_execute_trace_length exToolMap []).2.1⟩

/-- Witness for C6: a concrete save and an arbitrary-pick find round-trip the
example plan. -/
theorem c6_save_find_roundtrip_witness :
    find_successful_plan "query" 7 (save_successful_plan "fix bug" exPlan ["main.py"] [])
      = some { issue := "fix bug", plan := exPlan } :=
  c6_save_find_roundtrip "fix bug" exPlan ["main.py"] "query" 7
